import Mathlib

/-!
Shallow embedding of `nwb_explorer/nwb_model_interpreter/nwb_model_interpreter.py`
(class `NWBModelInterpreter`): the tree builder `importType`, the leaf-type
factory `get_timeseries_type`, the value resolver `importValue` /
`import_value_from_path`, the image path `extract_image_variable`, and the
name sanitizer `clean_name_to_variable`.

The mutable pygeppetto object graph (CompositeType / Variable, with shared,
mutated type objects) is embedded with an arena: composite types live in a
list indexed by `Nat`, a variable's single type is the index of the arena
entry, and Python's in-place `list.append` becomes a functional update of the
arena.  External collaborators that are not part of the repository sources
(the `NWBReader` adapter, the `settings` constants, `guessUnits`, the
pygeppetto factory, PIL's PNG encoder and `base64`) are modelled from the
spec at their interface boundary; each such definition is marked
`Modelled from the spec:` in its doc comment.
-/

namespace NWB

/-- `clean_name_to_variable` from the source:
`''.join(c for c in group_name.replace(' ', '_') if c.isalnum() or c in '_')`.
`str.replace(' ', '_')` on a single-character pattern is a character map, and
`c.isalnum()` is embedded as `Char.isAlphanum` (the spec restricts raw names
to the ASCII range). -/
def clean_name_to_variable (group_name : String) : String :=
  String.mk (((group_name.data.map (fun c => if c = ' ' then '_' else c)).filter
    (fun c => c.isAlphanum || c = '_')))

/-- Values the factory can place on a variable.  `importValue` is the
unresolved placeholder produced by `factory.createImportValue()`; the others
embed `createTimeSeries`, `Image(data=...)` and `createMDTimeSeries`. -/
inductive GValue where
  | importedValue : GValue
  | image (data : String) : GValue
  | timeSeries (name : String) (samples : List Int) (unit : String) : GValue
  | mdTimeSeries (name : String) (values : List GValue) : GValue

/-- A pygeppetto `Variable`: one id, one name, exactly one type (the code
always passes a one-element `types` tuple, and `variable.types[0]` is the
descend step), and an optional initial value for state variables. -/
structure GVariable where
  id : String
  name : String
  typeIdx : Nat
  initialValue : Option GValue

/-- A pygeppetto `CompositeType`: id, name, and its ordered `variables`
collection (appended to in place by the source). -/
structure GCompositeType where
  id : String
  name : String
  vars : List GVariable

instance : Inhabited GCompositeType := ⟨⟨"", "", []⟩⟩

/-- The whole mutable object graph touched by `importType`: the arena of all
composite-type objects, the `nwb_geppetto_library.types` list (as arena
indices, in append order), and the model-level `geppetto_model.variables`
list created by `createModel`. -/
structure BuildState where
  arena : List GCompositeType
  library : List Nat
  modelVars : List GVariable

/-- Arena lookup; a dangling index yields the default (empty) type. -/
def nth (s : BuildState) (i : Nat) : GCompositeType :=
  s.arena.getD i default

/-- Modelled from the spec: the record kinds the builder distinguishes.  The
closed set `SUPPORTED_TIME_SERIES_TYPES` and the `ImageSeries` class live in
`settings.py`, which is not among the sources; the spec partitions record
kinds into ordinary time series, image-bearing time series, and unsupported. -/
inductive RecordKind where
  | ordinary
  | imageSeries
  | unsupported
deriving DecidableEq

/-- Modelled from the spec: a decoded pixel array, interpreted as rows of
3-channel (RGB) pixels. -/
abbrev PixelArray := List (List (Nat × Nat × Nat))

/-- Modelled from the spec: one time-series-like record exposed by the
`NWBReader` Source Reader Adapter, carrying everything the adapter's query
contract can return for it.  `imageData` is the result of
`NWBReader.get_timeseries_image_array`, an `Except` capturing the
`ValueError` / `NotImplementedError` it may raise while building one leaf. -/
structure Record where
  name : String
  path : List String
  kind : RecordKind
  imageData : Except String PixelArray
  timestamps : List Int
  timestampsUnit : String
  data : List (List Int)
  unit : String

/-- Modelled from the spec: `MAX_SAMPLES` from `settings.py` (not among the
sources), the global cap on points per resolved series; the spec's scenario
uses 100. -/
def MAX_SAMPLES : Nat := 100

/-- Modelled from the spec: `path_separator` from `settings.py` (not among
the sources), the delimiter used to encode and decode a ValueReference — a
single character, embedded as a `Char` so that `str.split` can be given a
structurally recursive character-level embedding. -/
def path_separator_char : Char := '.'

/-- Modelled from the spec: the `path_separator` delimiter as a string. -/
def path_separator : String := String.mk [path_separator_char]

/-- Character-level embedding of Python's `str.split(sep)` for a
single-character separator: every occurrence splits, empty pieces are kept,
and the empty string yields one empty piece. -/
def splitOnSepChar (c : Char) : List Char → List (List Char)
  | [] => [[]]
  | x :: rest =>
    let r := splitOnSepChar c rest
    if x = c then [] :: r
    else
      match r with
      | [] => [[x]]
      | h :: t => (x :: h) :: t

/-- `import_value_path.split(path_separator)` from the source. -/
def splitPieces (s : String) : List String :=
  (splitOnSepChar path_separator_char s.data).map String.mk

/-- Modelled from the spec: `guessUnits` from `nwb_explorer.utils` (not among
the sources), a pure function from a raw unit string to a unit symbol; the
spec fixes no mapping, so it is embedded as the identity on unit strings. -/
def guessUnits (raw : String) : String := raw

/-- Modelled from the spec: `NWBReader.get_timeseries_timestamps(ts, max)` —
up to `max` timestamps for the record. -/
def get_timeseries_timestamps (r : Record) (maxSamples : Nat) : List Int :=
  r.timestamps.take maxSamples

/-- Modelled from the spec: `NWBReader.get_plottable_timeseries(ts, max)` —
the downsampled data channels, each capped at `max` samples. -/
def get_plottable_timeseries (r : Record) (maxSamples : Nat) : List (List Int) :=
  r.data.map (fun ch => ch.take maxSamples)

/-- Modelled from the spec: `GeppettoModelFactory.createStateVariable(id, v)`
from pygeppetto — a variable named after its id, typed by the common
state-variable type (arena index 0), carrying an initial value. -/
def createStateVariable (id : String) (v : GValue) : GVariable :=
  ⟨id, id, 0, some v⟩

/-- Modelled from the spec: `GeppettoModelFactory.createTimeSeries(name,
samples, unit)` from pygeppetto. -/
def createTimeSeries (name : String) (samples : List Int) (unit : String) : GValue :=
  .timeSeries name samples unit

/-- Modelled from the spec: PIL's `Image.fromarray(arr, 'RGB')` followed by
`img.save(..., 'PNG')` — an injective byte-stream stand-in for the PNG
encoding of an RGB pixel array (row count, row lengths, then the flattened
R,G,B channel bytes). -/
def pngEncode (a : PixelArray) : List Nat :=
  a.length :: (a.map List.length ++
    (a.map (fun row => (row.map (fun p => [p.1, p.2.1, p.2.2])).flatten)).flatten)

/-- Modelled from the spec: the base64 alphabet of RFC 4648, used by
`base64.b64encode`. -/
def base64Alphabet : List Char :=
  "ABCDEFGHIJKLMNOPQRSTUVWXYZabcdefghijklmnopqrstuvwxyz0123456789+/".data

/-- Modelled from the spec: one base64 output character. -/
def base64Char (n : Nat) : Char := base64Alphabet.getD n '='

/-- Modelled from the spec: `base64.b64encode(bytes).decode('utf8')` —
standard base64 with `=` padding over a byte list. -/
def base64encode : List Nat → String
  | [] => ""
  | [b1] =>
    String.mk [base64Char (b1 % 256 / 4), base64Char (b1 % 4 * 16), '=', '=']
  | [b1, b2] =>
    String.mk [base64Char (b1 % 256 / 4), base64Char (b1 % 4 * 16 + b2 % 256 / 16),
      base64Char (b2 % 16 * 4), '=']
  | b1 :: b2 :: b3 :: rest =>
    String.mk [base64Char (b1 % 256 / 4), base64Char (b1 % 4 * 16 + b2 % 256 / 16),
      base64Char (b2 % 16 * 4 + b3 % 256 / 64), base64Char (b3 % 64)] ++
    base64encode rest

/-- `extract_image_variable(metatype, plottable_timeseries)` from the source:
RGB-interpret, PNG-encode, base64-encode to a string, wrap as one `Image`
value inside a one-element MD time series named `metatype + "variable"`. -/
def extract_image_variable (metatype : String) (plottable_timeseries : PixelArray) : GValue :=
  .mdTimeSeries (metatype ++ "variable")
    [.image (base64encode (pngEncode plottable_timeseries))]

/-- `get_timeseries_type(name)` from the source: a fresh composite type with
id the (raw) `name`, name the literal `"timeseries"`, and two state variables
`"time"` and `"data"`, each carrying an unresolved import-value placeholder. -/
def get_timeseries_type (name : String) : GCompositeType :=
  ⟨name, "timeseries",
    [createStateVariable "time" .importedValue,
     createStateVariable "data" .importedValue]⟩

/-- The lookup inside `importType`'s path walk:
`[variable.types[0] for variable in parent_type.variables if nm == variable.name]`
taken at index 0 when non-empty — the first variable of the parent whose name
equals the sanitized segment, yielding its (single) type. -/
def findVarType (t : GCompositeType) (nm : String) : Option Nat :=
  (t.vars.find? (fun v => v.name == nm)).map (fun v => v.typeIdx)

/-- One step of `importType`'s path walk, on an already-sanitized name: reuse
the existing variable's type if the parent has one of that name, otherwise
create a fresh composite type, register it in the library, and append a
variable of the same name to the parent. -/
def walkSegmentClean (s : BuildState) (parent : Nat) (nm : String) : BuildState × Nat :=
  match findVarType (nth s parent) nm with
  | some t => (s, t)
  | none =>
    let newIdx := s.arena.length
    let newType : GCompositeType := ⟨nm, nm, []⟩
    let parentT := nth s parent
    let arena₂ := (s.arena ++ [newType]).set parent
      ⟨parentT.id, parentT.name, parentT.vars ++ [⟨nm, nm, newIdx, none⟩]⟩
    ({ s with arena := arena₂, library := s.library ++ [newIdx] }, newIdx)

/-- One step of the path walk on a raw segment: the code first sanitizes the
segment (`current_group_name = self.clean_name_to_variable(path_element)`). -/
def walkSegment (s : BuildState) (parent : Nat) (seg : String) : BuildState × Nat :=
  walkSegmentClean s parent (clean_name_to_variable seg)

/-- The full path walk of `importType`: the `for path_element in
timeseries_path` loop, threading `current_variable_type`. -/
def walkPath (s : BuildState) (parent : Nat) : List String → BuildState × Nat
  | [] => (s, parent)
  | seg :: rest =>
    let sm := walkSegment s parent seg
    walkPath sm.1 sm.2 rest

/-- The leaf-building `try` block of `importType`, at the terminal node of
the walk.  For an image-bearing record the decoded pixel array is fetched
eagerly and wrapped as a state variable `"image"`; a `ValueError` /
`NotImplementedError` from the fetch (the `.error` case) is caught and
logged, leaving the state unchanged.  For an ordinary record a fresh
time-series type is appended to the arena and registered in the library, and
a variable with the sanitized record name pointing to it is appended to the
terminal node. -/
def buildLeaf (s : BuildState) (term : Nat) (r : Record) : BuildState :=
  match r.kind with
  | .imageSeries =>
    match r.imageData with
    | .error _ => s
    | .ok arr =>
      let v := createStateVariable "image" (extract_image_variable "image" arr)
      let t := nth s term
      { s with arena := s.arena.set term ⟨t.id, t.name, t.vars ++ [v]⟩ }
  | .ordinary =>
    let tsType := get_timeseries_type r.name
    let tIdx := s.arena.length
    let nm := clean_name_to_variable r.name
    let t := nth s term
    { s with
        arena := (s.arena ++ [tsType]).set term
          ⟨t.id, t.name, t.vars ++ [⟨nm, nm, tIdx, none⟩]⟩,
        library := s.library ++ [tIdx] }
  | .unsupported => s

/-- One iteration of `importType`'s record loop: skip (with a logged
warning) when the record's kind is unsupported, otherwise walk the record's
hierarchy path from the root type and build the leaf at the terminal node. -/
def processRecord (s : BuildState) (root : Nat) (r : Record) : BuildState :=
  match r.kind with
  | .unsupported => s
  | .ordinary | .imageSeries =>
    let wm := walkPath s root r.path
    buildLeaf wm.1 wm.2 r

/-- `importType(nwbfile_or_path, nwbType, nwb_geppetto_library)` from the
source: register the root type into the library, enumerate all records via
the reader, and fold the record loop over them. -/
def importType (s : BuildState) (root : Nat) (records : List Record) : BuildState :=
  List.foldl (fun st r => processRecord st root r)
    { s with library := s.library ++ [root] } records

/-- Modelled from the spec where it leaves the sources: the common
state-variable type of the pygeppetto factory's shared library, the target
of every `createStateVariable`; pinned at arena index 0. -/
def stateVariableCommonType : GCompositeType := ⟨"StateVariable", "StateVariable", []⟩

/-- `createModel(nwbfile_or_path, typeName, library)` from the source: a
fresh root composite type (id and name `typeName`), a top-level variable
`'nwbfile'` bound to it, then `importType` over the records the reader
enumerates.  The root type sits at arena index 1, after the factory's common
state-variable type. -/
def createModel (records : List Record) (typeName : String) : BuildState :=
  importType
    { arena := [stateVariableCommonType, ⟨typeName, typeName, []⟩],
      library := [],
      modelVars := [⟨"nwbfile", "nwbfile", 1, none⟩] }
    1 records

/-- Modelled from the spec: the retained reader's record-by-path lookup
(`NWBReader.retrieve_from_path`, not among the sources): an unresolvable
path is a hard failure. -/
structure NWBReaderM where
  entries : List (List String × Record)

/-- Modelled from the spec: `retrieve_from_path` resolves a hierarchy path
to the record stored there, or fails with an error that is propagated. -/
def retrieve_from_path (rd : NWBReaderM) (p : List String) : Except String Record :=
  match rd.entries.find? (fun e => e.1 == p) with
  | some e => .ok e.2
  | none => .error ("No record at path " ++ String.intercalate "/" p)

/-- `importValue(import_value_path)` from the source: split the reference on
`path_separator`; the segments strictly between the first and the last are
the hierarchy path used to re-fetch the record; the last segment selects the
axis: `"time"` yields a time series `"time_" + name` from the capped
timestamps and the guessed timestamps unit, anything else yields a time
series `"data_" + name` from the first channel of the capped data samples
and the guessed data unit.  Failures of the re-fetch (and Python's
`IndexError` on an empty channel list) propagate. -/
def importValue (rd : NWBReaderM) (import_value_path : String) : Except String GValue :=
  let path_pieces := splitPieces import_value_path
  let var_to_extract := path_pieces.getLastD ""
  match retrieve_from_path rd ((path_pieces.drop 1).dropLast) with
  | .error e => .error e
  | .ok time_series =>
    if var_to_extract = "time" then
      let timestamps := get_timeseries_timestamps time_series MAX_SAMPLES
      let timestamps_unit := guessUnits time_series.timestampsUnit
      .ok (createTimeSeries ("time_" ++ time_series.name) timestamps timestamps_unit)
    else
      match (get_plottable_timeseries time_series MAX_SAMPLES).head? with
      | none => .error "IndexError: list index out of range"
      | some ch0 =>
        .ok (createTimeSeries ("data_" ++ time_series.name) ch0
          (guessUnits time_series.unit))

/-- `import_value_from_path(import_value_path)` from the source: a verbatim
duplicate of `importValue`, embedded independently, line for line. -/
def import_value_from_path (rd : NWBReaderM) (import_value_path : String) :
    Except String GValue :=
  let path_pieces := splitPieces import_value_path
  let var_to_extract := path_pieces.getLastD ""
  match retrieve_from_path rd ((path_pieces.drop 1).dropLast) with
  | .error e => .error e
  | .ok time_series =>
    if var_to_extract = "time" then
      let timestamps := get_timeseries_timestamps time_series MAX_SAMPLES
      let timestamps_unit := guessUnits time_series.timestampsUnit
      .ok (createTimeSeries ("time_" ++ time_series.name) timestamps timestamps_unit)
    else
      match (get_plottable_timeseries time_series MAX_SAMPLES).head? with
      | none => .error "IndexError: list index out of range"
      | some ch0 =>
        .ok (createTimeSeries ("data_" ++ time_series.name) ch0
          (guessUnits time_series.unit))

/-! ### List-level helper lemmas for the arena embedding -/

theorem getD_append_left {α : Type} [Inhabited α] (l l₂ : List α) (i : Nat)
    (h : i < l.length) : (l ++ l₂).getD i default = l.getD i default := by
  simp [List.getD, List.getElem?_append_left h]

theorem getD_append_len {α : Type} [Inhabited α] (l : List α) (a : α) :
    (l ++ [a]).getD l.length default = a := by
  simp [List.getD, List.getElem?_append_right (Nat.le_refl _)]

theorem getD_set_self {α : Type} [Inhabited α] (l : List α) (i : Nat) (a : α)
    (h : i < l.length) : (l.set i a).getD i default = a := by
  simp [List.getD, List.getElem?_set_self, h]

theorem getD_set_ne {α : Type} [Inhabited α] (l : List α) (i j : Nat) (a : α)
    (h : i ≠ j) : (l.set i a).getD j default = l.getD j default := by
  simp [List.getD, List.getElem?_set_ne h]

theorem getD_mem {α : Type} [Inhabited α] (l : List α) (i : Nat) (h : i < l.length) :
    l.getD i default ∈ l := by
  simp [List.getD, List.getElem?_eq_getElem h]

theorem getE_append_left {α : Type} [Inhabited α] (l l₂ : List α) (i : Nat)
    (h : i < l.length) : (l ++ l₂)[i]?.getD default = l[i]?.getD default := by
  simp [List.getElem?_append_left h]

theorem getE_append_len {α : Type} [Inhabited α] (l : List α) (a : α) :
    (l ++ [a])[l.length]?.getD default = a := by
  simp [List.getElem?_append_right (Nat.le_refl _)]

theorem getE_set_self {α : Type} [Inhabited α] (l : List α) (i : Nat) (a : α)
    (h : i < l.length) : (l.set i a)[i]?.getD default = a := by
  simp [List.getElem?_set_self, h]

theorem getE_set_ne {α : Type} [Inhabited α] (l : List α) (i j : Nat) (a : α)
    (h : i ≠ j) : (l.set i a)[j]?.getD default = l[j]?.getD default := by
  simp [List.getElem?_set_ne h]

/-! ### The sanitizer: character discipline and idempotence -/

/-- Every character kept by `clean_name_to_variable` is ASCII alphanumeric or
an underscore. -/
theorem clean_name_chars (s : String) :
    ∀ c ∈ (clean_name_to_variable s).data, (c.isAlphanum || c = '_') = true := by
  intro c hc
  have : c ∈ (s.data.map (fun c => if c = ' ' then '_' else c)).filter
      (fun c => c.isAlphanum || c = '_') := hc
  exact (List.mem_filter.mp this).2

/-- Sanitizing an already-sanitized name changes nothing. -/
theorem clean_name_idempotent (s : String) :
    clean_name_to_variable (clean_name_to_variable s) = clean_name_to_variable s := by
  have hchars := clean_name_chars s
  have hmap : (clean_name_to_variable s).data.map (fun c => if c = ' ' then '_' else c)
      = (clean_name_to_variable s).data := by
    refine (List.map_congr_left ?_).trans (List.map_id _)
    intro c hc
    have h := hchars c hc
    have hne : c ≠ ' ' := by
      intro he
      subst he
      exact absurd h (by decide)
    simp [hne]
  have hfilter : (clean_name_to_variable s).data.filter (fun c => c.isAlphanum || c = '_')
      = (clean_name_to_variable s).data :=
    List.filter_eq_self.mpr hchars
  calc clean_name_to_variable (clean_name_to_variable s)
      = String.mk (((clean_name_to_variable s).data.map
          (fun c => if c = ' ' then '_' else c)).filter
          (fun c => c.isAlphanum || c = '_')) := rfl
    _ = String.mk (clean_name_to_variable s).data := by rw [hmap, hfilter]
    _ = clean_name_to_variable s := rfl

/-! ### Well-formedness and growth of the build state -/

/-- Decidable well-formedness: every variable's type index points into the
arena. -/
def WFb (s : BuildState) : Bool :=
  s.arena.all (fun t => t.vars.all (fun v => v.typeIdx < s.arena.length))

theorem WFb_iff (s : BuildState) :
    WFb s = true ↔ ∀ t ∈ s.arena, ∀ v ∈ t.vars, v.typeIdx < s.arena.length := by
  simp [WFb]

/-- Decidable library validity: every registered index points into the arena. -/
def libOk (s : BuildState) : Bool :=
  s.library.all (fun i => i < s.arena.length)

theorem libOk_iff (s : BuildState) :
    libOk s = true ↔ ∀ i ∈ s.library, i < s.arena.length := by
  simp [libOk]

/-- Growth preorder on build states: the arena only ever gains entries, an
existing entry keeps its id and name, and its variable list is only ever
appended to.  Every operation of the tree builder respects it. -/
def StateLe (s t : BuildState) : Prop :=
  s.arena.length ≤ t.arena.length ∧
  ∀ i, i < s.arena.length →
    (nth t i).id = (nth s i).id ∧ (nth t i).name = (nth s i).name ∧
    ∃ ext, (nth t i).vars = (nth s i).vars ++ ext

theorem stateLe_refl {s : BuildState} : StateLe s s :=
  ⟨Nat.le_refl _, fun i _ => ⟨rfl, rfl, [], by simp⟩⟩

theorem stateLe_trans {s t u : BuildState} (h₁ : StateLe s t) (h₂ : StateLe t u) :
    StateLe s u := by
  obtain ⟨hl₁, hi₁⟩ := h₁
  obtain ⟨hl₂, hi₂⟩ := h₂
  refine ⟨Nat.le_trans hl₁ hl₂, fun i hi => ?_⟩
  obtain ⟨hid₁, hnm₁, ext₁, hv₁⟩ := hi₁ i hi
  obtain ⟨hid₂, hnm₂, ext₂, hv₂⟩ := hi₂ i (Nat.lt_of_lt_of_le hi hl₁)
  exact ⟨hid₂.trans hid₁, hnm₂.trans hnm₁, ext₁ ++ ext₂,
    by rw [hv₂, hv₁, List.append_assoc]⟩

theorem nth_mem (s : BuildState) (i : Nat) (h : i < s.arena.length) :
    nth s i ∈ s.arena :=
  getD_mem _ _ h

/-- The walk's variable lookup is stable under state growth: the first
variable of a given name stays the first, because variable lists are only
appended to. -/
theorem findVarType_mono {s t : BuildState} (hle : StateLe s t) {p : Nat}
    (hp : p < s.arena.length) {nm : String} {x : Nat}
    (hf : findVarType (nth s p) nm = some x) :
    findVarType (nth t p) nm = some x := by
  obtain ⟨-, hi⟩ := hle
  obtain ⟨-, -, ext, hv⟩ := hi p hp
  unfold findVarType at hf ⊢
  rw [hv, List.find?_append]
  cases hfind : (nth s p).vars.find? (fun v => v.name == nm) with
  | none => rw [hfind] at hf; simp at hf
  | some v => rw [hfind] at hf; simpa using hf

/-! ### One walk step: unfolding, growth, well-formedness -/

theorem walkSegmentClean_found {s : BuildState} {p : Nat} {nm : String} {t : Nat}
    (h : findVarType (nth s p) nm = some t) :
    walkSegmentClean s p nm = (s, t) := by
  simp [walkSegmentClean, h]

theorem walkSegmentClean_create {s : BuildState} {p : Nat} {nm : String}
    (h : findVarType (nth s p) nm = none) :
    walkSegmentClean s p nm =
      ({ s with
          arena := (s.arena ++ [(⟨nm, nm, []⟩ : GCompositeType)]).set p
            (⟨(nth s p).id, (nth s p).name,
              (nth s p).vars ++ [(⟨nm, nm, s.arena.length, none⟩ : GVariable)]⟩ :
                GCompositeType),
          library := s.library ++ [s.arena.length] }, s.arena.length) := by
  simp [walkSegmentClean, h]

theorem walkSegmentClean_le (s : BuildState) (p : Nat) (nm : String) :
    StateLe s (walkSegmentClean s p nm).1 := by
  cases hf : findVarType (nth s p) nm with
  | some t => rw [walkSegmentClean_found hf]; exact stateLe_refl
  | none =>
    rw [walkSegmentClean_create hf]
    refine ⟨by simp, fun i hi => ?_⟩
    by_cases hip : i = p
    · subst hip
      have hl : i < (s.arena ++ [(⟨nm, nm, []⟩ : GCompositeType)]).length := by
        simp
        omega
      refine ⟨?_, ?_, [(⟨nm, nm, s.arena.length, none⟩ : GVariable)], ?_⟩ <;>
        simp [nth, getE_set_self _ _ _ hl]
    · have hne : p ≠ i := fun h => hip h.symm
      refine ⟨?_, ?_, [], ?_⟩ <;>
        simp [nth, getE_set_ne _ _ _ _ hne, getE_append_left _ _ _ hi]

theorem walkSegmentClean_wf {s : BuildState} {p : Nat} (nm : String)
    (hwf : WFb s = true) (hp : p < s.arena.length) :
    WFb (walkSegmentClean s p nm).1 = true ∧
    (walkSegmentClean s p nm).2 < (walkSegmentClean s p nm).1.arena.length := by
  have hwfp := (WFb_iff s).mp hwf
  cases hf : findVarType (nth s p) nm with
  | some t =>
    rw [walkSegmentClean_found hf]
    refine ⟨hwf, ?_⟩
    unfold findVarType at hf
    cases hfind : (nth s p).vars.find? (fun v => v.name == nm) with
    | none => rw [hfind] at hf; simp at hf
    | some v =>
      rw [hfind] at hf
      have hvt : v.typeIdx = t := by simpa using hf
      cases hvt
      exact hwfp _ (nth_mem s p hp) v (List.mem_of_find?_eq_some hfind)
  | none =>
    rw [walkSegmentClean_create hf]
    constructor
    · apply (WFb_iff _).mpr
      intro t ht v hv
      simp only [List.length_set, List.length_append, List.length_singleton]
      rcases List.mem_or_eq_of_mem_set ht with ht | ht
      · rcases List.mem_append.mp ht with ht | ht
        · exact Nat.lt_succ_of_lt (hwfp t ht v hv)
        · simp only [List.mem_singleton] at ht
          subst ht
          simp at hv
      · subst ht
        rcases List.mem_append.mp hv with hv | hv
        · exact Nat.lt_succ_of_lt (hwfp _ (nth_mem s p hp) v hv)
        · simp only [List.mem_singleton] at hv
          subst hv
          simp
    · simp

theorem walkSegmentClean_lib {s : BuildState} (p : Nat) (nm : String)
    (hl : libOk s = true) : libOk (walkSegmentClean s p nm).1 = true := by
  have hlp := (libOk_iff s).mp hl
  cases hf : findVarType (nth s p) nm with
  | some t => rw [walkSegmentClean_found hf]; exact hl
  | none =>
    rw [walkSegmentClean_create hf]
    apply (libOk_iff _).mpr
    intro i hi
    simp only [List.length_set, List.length_append, List.length_singleton]
    rcases List.mem_append.mp hi with hi | hi
    · exact Nat.lt_succ_of_lt (hlp i hi)
    · simp only [List.mem_singleton] at hi
      subst hi
      simp

theorem walkSegmentClean_find (s : BuildState) (p : Nat) (nm : String)
    (hp : p < s.arena.length) :
    findVarType (nth (walkSegmentClean s p nm).1 p) nm
      = some (walkSegmentClean s p nm).2 := by
  cases hf : findVarType (nth s p) nm with
  | some t => rw [walkSegmentClean_found hf]; exact hf
  | none =>
    rw [walkSegmentClean_create hf]
    have hl : p < (s.arena ++ [(⟨nm, nm, []⟩ : GCompositeType)]).length := by
      simp
      omega
    simp only [nth, getD_set_self _ _ _ hl]
    unfold findVarType at hf ⊢
    have hfind : (s.arena.getD p default).vars.find? (fun v => v.name == nm) = none := by
      cases hfind : (s.arena.getD p default).vars.find? (fun v => v.name == nm) with
      | none => rfl
      | some v =>
        have : (nth s p).vars.find? (fun v => v.name == nm) = some v := hfind
        rw [this] at hf
        simp at hf
    rw [List.find?_append, hfind]
    simp [List.find?]

theorem walkSegmentClean_modelVars (s : BuildState) (p : Nat) (nm : String) :
    (walkSegmentClean s p nm).1.modelVars = s.modelVars := by
  cases hf : findVarType (nth s p) nm with
  | some t => rw [walkSegmentClean_found hf]
  | none => rw [walkSegmentClean_create hf]

/-! ### The full path walk: growth, well-formedness, stability -/

theorem walkPath_cons (s : BuildState) (p : Nat) (seg : String) (rest : List String) :
    walkPath s p (seg :: rest) =
      walkPath (walkSegment s p seg).1 (walkSegment s p seg).2 rest := rfl

theorem walkSegment_le (s : BuildState) (p : Nat) (seg : String) :
    StateLe s (walkSegment s p seg).1 :=
  walkSegmentClean_le s p (clean_name_to_variable seg)

theorem walkPath_le (q : List String) (s : BuildState) (p : Nat) :
    StateLe s (walkPath s p q).1 := by
  induction q generalizing s p with
  | nil => exact stateLe_refl
  | cons seg rest ih =>
    rw [walkPath_cons]
    exact stateLe_trans (walkSegment_le s p seg) (ih _ _)

theorem walkPath_wf (q : List String) (s : BuildState) (p : Nat)
    (hwf : WFb s = true) (hp : p < s.arena.length) :
    WFb (walkPath s p q).1 = true ∧
    (walkPath s p q).2 < (walkPath s p q).1.arena.length := by
  induction q generalizing s p with
  | nil => exact ⟨hwf, hp⟩
  | cons seg rest ih =>
    rw [walkPath_cons]
    obtain ⟨h1, h2⟩ := walkSegmentClean_wf (clean_name_to_variable seg) hwf hp
    exact ih _ _ h1 h2

theorem walkPath_lib (q : List String) (s : BuildState) (p : Nat)
    (hl : libOk s = true) : libOk (walkPath s p q).1 = true := by
  induction q generalizing s p with
  | nil => exact hl
  | cons seg rest ih =>
    rw [walkPath_cons]
    exact ih _ _ (walkSegmentClean_lib p (clean_name_to_variable seg) hl)

theorem walkPath_modelVars (q : List String) (s : BuildState) (p : Nat) :
    (walkPath s p q).1.modelVars = s.modelVars := by
  induction q generalizing s p with
  | nil => rfl
  | cons seg rest ih =>
    rw [walkPath_cons]
    exact (ih _ _).trans (walkSegmentClean_modelVars s p _)

theorem walkPath_append (q a : List String) (s : BuildState) (p : Nat) :
    walkPath s p (q ++ a) = walkPath (walkPath s p q).1 (walkPath s p q).2 a := by
  induction q generalizing s p with
  | nil => rfl
  | cons seg rest ih =>
    rw [List.cons_append, walkPath_cons, walkPath_cons]
    exact ih _ _

/-- The walk depends on the raw path only through the sanitized segment
names. -/
theorem walkPath_congr {q₁ q₂ : List String} (s : BuildState) (p : Nat)
    (h : q₁.map clean_name_to_variable = q₂.map clean_name_to_variable) :
    walkPath s p q₁ = walkPath s p q₂ := by
  induction q₁ generalizing q₂ s p with
  | nil =>
    cases q₂ with
    | nil => rfl
    | cons b r₂ => simp at h
  | cons a r ih =>
    cases q₂ with
    | nil => simp at h
    | cons b r₂ =>
      simp only [List.map_cons, List.cons.injEq] at h
      obtain ⟨hab, hr⟩ := h
      rw [walkPath_cons, walkPath_cons]
      show walkPath (walkSegmentClean s p (clean_name_to_variable a)).1
          (walkSegmentClean s p (clean_name_to_variable a)).2 r = _
      rw [hab]
      exact ih _ _ hr

/-- Stability of an already-materialized walk: if the state has grown (only
by appends) since a walk of `q` was performed, re-walking `q` from the same
root changes nothing — every segment is found — and reaches the very same
terminal node. -/
theorem walkPath_stable (q : List String) (s t : BuildState) (p : Nat)
    (hwf : WFb s = true) (hp : p < s.arena.length)
    (hle : StateLe (walkPath s p q).1 t) :
    walkPath t p q = (t, (walkPath s p q).2) := by
  induction q generalizing s t p with
  | nil => rfl
  | cons seg rest ih =>
    rw [walkPath_cons] at hle ⊢
    rw [walkPath_cons]
    have hstep := walkSegmentClean_find s p (clean_name_to_variable seg) hp
    have hle₁ : StateLe (walkSegment s p seg).1 t :=
      stateLe_trans (walkPath_le rest _ _) hle
    have hlen₁ : p < (walkSegment s p seg).1.arena.length :=
      Nat.lt_of_lt_of_le hp (walkSegmentClean_le s p (clean_name_to_variable seg)).1
    have hfind_t : findVarType (nth t p) (clean_name_to_variable seg)
        = some (walkSegment s p seg).2 :=
      findVarType_mono hle₁ hlen₁ hstep
    have hseg_t : walkSegment t p seg = (t, (walkSegment s p seg).2) :=
      walkSegmentClean_found hfind_t
    rw [hseg_t]
    obtain ⟨hwf₁, hp₁⟩ := walkSegmentClean_wf (clean_name_to_variable seg) hwf hp
    exact ih _ _ _ hwf₁ hp₁ hle

/-! ### Leaf building and the record loop -/

theorem buildLeaf_le (s : BuildState) (term : Nat) (r : Record) :
    StateLe s (buildLeaf s term r) := by
  cases hk : r.kind with
  | unsupported => simp [buildLeaf, hk]; exact stateLe_refl
  | imageSeries =>
    cases himg : r.imageData with
    | error e => simp [buildLeaf, hk, himg]; exact stateLe_refl
    | ok arr =>
      simp only [buildLeaf, hk, himg]
      refine ⟨by simp, fun i hi => ?_⟩
      by_cases hit : i = term
      · subst hit
        refine ⟨?_, ?_, [createStateVariable "image" (extract_image_variable "image" arr)],
          ?_⟩ <;> simp [nth, getE_set_self _ _ _ hi]
      · have hne : term ≠ i := fun h => hit h.symm
        refine ⟨?_, ?_, [], ?_⟩ <;> simp [nth, getE_set_ne _ _ _ _ hne]
  | ordinary =>
    simp only [buildLeaf, hk]
    refine ⟨by simp, fun i hi => ?_⟩
    by_cases hit : i = term
    · subst hit
      have hl : i < (s.arena ++ [get_timeseries_type r.name]).length := by
        simp
        omega
      refine ⟨?_, ?_,
        [(⟨clean_name_to_variable r.name, clean_name_to_variable r.name,
           s.arena.length, none⟩ : GVariable)], ?_⟩ <;>
        simp [nth, getE_set_self _ _ _ hl]
    · have hne : term ≠ i := fun h => hit h.symm
      refine ⟨?_, ?_, [], ?_⟩ <;>
        simp [nth, getE_set_ne _ _ _ _ hne, getE_append_left _ _ _ hi]

theorem buildLeaf_wf (s : BuildState) (term : Nat) (r : Record)
    (hwf : WFb s = true) (hterm : term < s.arena.length) :
    WFb (buildLeaf s term r) = true := by
  have hwfp := (WFb_iff s).mp hwf
  have hpos : 0 < s.arena.length := Nat.lt_of_le_of_lt (Nat.zero_le _) hterm
  cases hk : r.kind with
  | unsupported => simpa [buildLeaf, hk] using hwf
  | imageSeries =>
    cases himg : r.imageData with
    | error e => simpa [buildLeaf, hk, himg] using hwf
    | ok arr =>
      simp only [buildLeaf, hk, himg]
      apply (WFb_iff _).mpr
      intro t ht v hv
      simp only [List.length_set]
      rcases List.mem_or_eq_of_mem_set ht with ht | ht
      · exact hwfp t ht v hv
      · subst ht
        rcases List.mem_append.mp hv with hv | hv
        · exact hwfp _ (nth_mem s term hterm) v hv
        · simp only [List.mem_singleton] at hv
          subst hv
          exact hpos
  | ordinary =>
    simp only [buildLeaf, hk]
    apply (WFb_iff _).mpr
    intro t ht v hv
    simp only [List.length_set, List.length_append, List.length_singleton]
    rcases List.mem_or_eq_of_mem_set ht with ht | ht
    · rcases List.mem_append.mp ht with ht | ht
      · exact Nat.lt_succ_of_lt (hwfp t ht v hv)
      · simp only [List.mem_singleton] at ht
        subst ht
        simp only [get_timeseries_type, createStateVariable, List.mem_cons,
          List.mem_singleton, List.not_mem_nil, or_false] at hv
        rcases hv with hv | hv <;> subst hv <;> simp
    · subst ht
      rcases List.mem_append.mp hv with hv | hv
      · exact Nat.lt_succ_of_lt (hwfp _ (nth_mem s term hterm) v hv)
      · simp only [List.mem_singleton] at hv
        subst hv
        simp

theorem buildLeaf_lib (s : BuildState) (term : Nat) (r : Record)
    (hl : libOk s = true) : libOk (buildLeaf s term r) = true := by
  have hlp := (libOk_iff s).mp hl
  cases hk : r.kind with
  | unsupported => simpa [buildLeaf, hk] using hl
  | imageSeries =>
    cases himg : r.imageData with
    | error e => simpa [buildLeaf, hk, himg] using hl
    | ok arr =>
      simp only [buildLeaf, hk, himg]
      apply (libOk_iff _).mpr
      intro i hi
      simp only [List.length_set]
      exact hlp i hi
  | ordinary =>
    simp only [buildLeaf, hk]
    apply (libOk_iff _).mpr
    intro i hi
    simp only [List.length_set, List.length_append, List.length_singleton]
    rcases List.mem_append.mp hi with hi | hi
    · exact Nat.lt_succ_of_lt (hlp i hi)
    · simp only [List.mem_singleton] at hi
      subst hi
      simp

theorem buildLeaf_modelVars (s : BuildState) (term : Nat) (r : Record) :
    (buildLeaf s term r).modelVars = s.modelVars := by
  cases hk : r.kind with
  | unsupported => simp [buildLeaf, hk]
  | imageSeries =>
    cases himg : r.imageData with
    | error e => simp [buildLeaf, hk, himg]
    | ok arr => simp [buildLeaf, hk, himg]
  | ordinary => simp [buildLeaf, hk]

theorem processRecord_eq_walk_buildLeaf {s : BuildState} {root : Nat} {r : Record}
    (hk : r.kind ≠ RecordKind.unsupported) :
    processRecord s root r
      = buildLeaf (walkPath s root r.path).1 (walkPath s root r.path).2 r := by
  cases hkk : r.kind with
  | unsupported => exact absurd hkk hk
  | ordinary => simp [processRecord, hkk]
  | imageSeries => simp [processRecord, hkk]

theorem processRecord_le (s : BuildState) (root : Nat) (r : Record) :
    StateLe s (processRecord s root r) := by
  cases hk : r.kind with
  | unsupported => simp [processRecord, hk]; exact stateLe_refl
  | ordinary =>
    simp only [processRecord, hk]
    exact stateLe_trans (walkPath_le r.path s root) (buildLeaf_le _ _ _)
  | imageSeries =>
    simp only [processRecord, hk]
    exact stateLe_trans (walkPath_le r.path s root) (buildLeaf_le _ _ _)

theorem processRecord_wf (s : BuildState) (root : Nat) (r : Record)
    (hwf : WFb s = true) (hroot : root < s.arena.length) :
    WFb (processRecord s root r) = true := by
  cases hk : r.kind with
  | unsupported => simpa [processRecord, hk] using hwf
  | ordinary =>
    simp only [processRecord, hk]
    obtain ⟨h1, h2⟩ := walkPath_wf r.path s root hwf hroot
    exact buildLeaf_wf _ _ _ h1 h2
  | imageSeries =>
    simp only [processRecord, hk]
    obtain ⟨h1, h2⟩ := walkPath_wf r.path s root hwf hroot
    exact buildLeaf_wf _ _ _ h1 h2

theorem processRecord_lib (s : BuildState) (root : Nat) (r : Record)
    (hl : libOk s = true) : libOk (processRecord s root r) = true := by
  cases hk : r.kind with
  | unsupported => simpa [processRecord, hk] using hl
  | ordinary =>
    simp only [processRecord, hk]
    exact buildLeaf_lib _ _ _ (walkPath_lib r.path s root hl)
  | imageSeries =>
    simp only [processRecord, hk]
    exact buildLeaf_lib _ _ _ (walkPath_lib r.path s root hl)

theorem processRecord_modelVars (s : BuildState) (root : Nat) (r : Record) :
    (processRecord s root r).modelVars = s.modelVars := by
  cases hk : r.kind with
  | unsupported => simp [processRecord, hk]
  | ordinary =>
    simp only [processRecord, hk]
    exact (buildLeaf_modelVars _ _ _).trans (walkPath_modelVars r.path s root)
  | imageSeries =>
    simp only [processRecord, hk]
    exact (buildLeaf_modelVars _ _ _).trans (walkPath_modelVars r.path s root)

theorem foldl_process_le (records : List Record) (root : Nat) (s : BuildState) :
    StateLe s (List.foldl (fun st r => processRecord st root r) s records) := by
  induction records generalizing s with
  | nil => exact stateLe_refl
  | cons r rest ih =>
    exact stateLe_trans (processRecord_le s root r) (ih _)

theorem foldl_process_wf (records : List Record) (root : Nat) (s : BuildState)
    (hwf : WFb s = true) (hroot : root < s.arena.length) :
    WFb (List.foldl (fun st r => processRecord st root r) s records) = true := by
  induction records generalizing s with
  | nil => exact hwf
  | cons r rest ih =>
    exact ih _ (processRecord_wf s root r hwf hroot)
      (Nat.lt_of_lt_of_le hroot (processRecord_le s root r).1)

/-! ### Presence of a leaf variable, and its preservation -/

/-- In a state whose walk of `r.path` is already fully materialized, the
terminal group node owns a variable named after the sanitized record name. -/
def leafPresent (s : BuildState) (root : Nat) (r : Record) : Bool :=
  (nth s (walkPath s root r.path).2).vars.any
    (fun v => v.name == clean_name_to_variable r.name)

theorem settled_mono {s t : BuildState} {root : Nat} {r : Record}
    (hwf : WFb s = true) (hroot : root < s.arena.length)
    (hnoop : (walkPath s root r.path).1 = s)
    (hleaf : leafPresent s root r = true)
    (hle : StateLe s t) :
    (walkPath t root r.path).1 = t ∧ leafPresent t root r = true := by
  have hstab := walkPath_stable r.path s t root hwf hroot (by rw [hnoop]; exact hle)
  refine ⟨by rw [hstab], ?_⟩
  unfold leafPresent at hleaf ⊢
  rw [hstab]
  show (nth t (walkPath s root r.path).2).vars.any
    (fun v => v.name == clean_name_to_variable r.name) = true
  have hm : (walkPath s root r.path).2 < s.arena.length := by
    have := (walkPath_wf r.path s root hwf hroot).2
    rwa [hnoop] at this
  obtain ⟨-, hi⟩ := hle
  obtain ⟨-, -, ext, hv⟩ := hi _ hm
  rw [hv, List.any_append, hleaf]
  rfl

theorem processRecord_settles {s : BuildState} {root : Nat} {r : Record}
    (hwf : WFb s = true) (hroot : root < s.arena.length)
    (hk : r.kind = RecordKind.ordinary) :
    (walkPath (processRecord s root r) root r.path).1 = processRecord s root r ∧
    leafPresent (processRecord s root r) root r = true := by
  have hpr : processRecord s root r
      = buildLeaf (walkPath s root r.path).1 (walkPath s root r.path).2 r :=
    processRecord_eq_walk_buildLeaf (by simp [hk])
  obtain ⟨hwf₁, hm₁⟩ := walkPath_wf r.path s root hwf hroot
  have hle₁ : StateLe (walkPath s root r.path).1 (processRecord s root r) := by
    rw [hpr]
    exact buildLeaf_le _ _ _
  have hstab := walkPath_stable r.path s (processRecord s root r) root hwf hroot hle₁
  refine ⟨by rw [hstab], ?_⟩
  unfold leafPresent
  rw [hstab]
  show (nth (processRecord s root r) (walkPath s root r.path).2).vars.any
    (fun v => v.name == clean_name_to_variable r.name) = true
  rw [hpr]
  simp only [buildLeaf, hk]
  have hl : (walkPath s root r.path).2
      < ((walkPath s root r.path).1.arena ++ [get_timeseries_type r.name]).length := by
    simp
    omega
  simp [nth, getE_set_self _ _ _ hl]

theorem foldl_process_settles (records : List Record) (s : BuildState) (root : Nat)
    (hwf : WFb s = true) (hroot : root < s.arena.length) :
    ∀ r ∈ records, r.kind = RecordKind.ordinary →
      (walkPath (List.foldl (fun st x => processRecord st root x) s records) root r.path).1
        = List.foldl (fun st x => processRecord st root x) s records ∧
      leafPresent (List.foldl (fun st x => processRecord st root x) s records) root r
        = true := by
  induction records generalizing s with
  | nil =>
    intro r hr
    simp at hr
  | cons r₀ rest ih =>
    intro r hr hk
    simp only [List.foldl_cons]
    have hwf₀ : WFb (processRecord s root r₀) = true := processRecord_wf s root r₀ hwf hroot
    have hroot₀ : root < (processRecord s root r₀).arena.length :=
      Nat.lt_of_lt_of_le hroot (processRecord_le s root r₀).1
    rcases List.mem_cons.mp hr with hr | hr
    · subst hr
      obtain ⟨hnoop, hleaf⟩ := processRecord_settles hwf hroot hk
      exact settled_mono hwf₀ hroot₀ hnoop hleaf (foldl_process_le rest root _)
    · exact ih _ hwf₀ hroot₀ r hr hk

/-! ### Sanitized variable identifiers: the invariant behind the naming surface -/

/-- Decidable check: every variable id anywhere in the model (arena variables
and the model-level variables) is a fixed point of the sanitizer. -/
def sanitizedOk (s : BuildState) : Bool :=
  s.arena.all (fun t => t.vars.all (fun v => clean_name_to_variable v.id == v.id)) &&
  s.modelVars.all (fun v => clean_name_to_variable v.id == v.id)

theorem sanitizedOk_iff (s : BuildState) : sanitizedOk s = true ↔
    (∀ t ∈ s.arena, ∀ v ∈ t.vars, clean_name_to_variable v.id = v.id) ∧
    (∀ v ∈ s.modelVars, clean_name_to_variable v.id = v.id) := by
  simp [sanitizedOk]

theorem sanitizedOk_walkSegmentClean (s : BuildState) (p : Nat) (nm : String)
    (hnm : clean_name_to_variable nm = nm)
    (h : sanitizedOk s = true) : sanitizedOk (walkSegmentClean s p nm).1 = true := by
  obtain ⟨ha, hm⟩ := (sanitizedOk_iff s).mp h
  cases hf : findVarType (nth s p) nm with
  | some t => rw [walkSegmentClean_found hf]; exact h
  | none =>
    rw [walkSegmentClean_create hf]
    apply (sanitizedOk_iff _).mpr
    refine ⟨fun t ht v hv => ?_, hm⟩
    rcases List.mem_or_eq_of_mem_set ht with ht | ht
    · rcases List.mem_append.mp ht with ht | ht
      · exact ha t ht v hv
      · simp only [List.mem_singleton] at ht
        subst ht
        simp at hv
    · subst ht
      rcases List.mem_append.mp hv with hv | hv
      · by_cases hp : p < s.arena.length
        · exact ha _ (nth_mem s p hp) v hv
        · have : nth s p = default := by
            simp [nth, List.getElem?_eq_none (Nat.le_of_not_lt hp)]
          rw [this] at hv
          simp [default] at hv
      · simp only [List.mem_singleton] at hv
        subst hv
        exact hnm

theorem sanitizedOk_walkPath (q : List String) (s : BuildState) (p : Nat)
    (h : sanitizedOk s = true) : sanitizedOk (walkPath s p q).1 = true := by
  induction q generalizing s p with
  | nil => exact h
  | cons seg rest ih =>
    rw [walkPath_cons]
    exact ih _ _ (sanitizedOk_walkSegmentClean s p _ (clean_name_idempotent seg) h)

theorem sanitizedOk_buildLeaf (s : BuildState) (term : Nat) (r : Record)
    (h : sanitizedOk s = true) : sanitizedOk (buildLeaf s term r) = true := by
  obtain ⟨ha, hm⟩ := (sanitizedOk_iff s).mp h
  have hnth : ∀ v ∈ (nth s term).vars, clean_name_to_variable v.id = v.id := by
    intro v hv
    by_cases hp : term < s.arena.length
    · exact ha _ (nth_mem s term hp) v hv
    · have : nth s term = default := by
        simp [nth, List.getElem?_eq_none (Nat.le_of_not_lt hp)]
      rw [this] at hv
      simp [default] at hv
  cases hk : r.kind with
  | unsupported => simpa [buildLeaf, hk] using h
  | imageSeries =>
    cases himg : r.imageData with
    | error e => simpa [buildLeaf, hk, himg] using h
    | ok arr =>
      simp only [buildLeaf, hk, himg]
      apply (sanitizedOk_iff _).mpr
      refine ⟨fun t ht v hv => ?_, hm⟩
      rcases List.mem_or_eq_of_mem_set ht with ht | ht
      · exact ha t ht v hv
      · subst ht
        rcases List.mem_append.mp hv with hv | hv
        · exact hnth v hv
        · simp only [List.mem_singleton] at hv
          subst hv
          show clean_name_to_variable "image" = "image"
          decide
  | ordinary =>
    simp only [buildLeaf, hk]
    apply (sanitizedOk_iff _).mpr
    refine ⟨fun t ht v hv => ?_, hm⟩
    rcases List.mem_or_eq_of_mem_set ht with ht | ht
    · rcases List.mem_append.mp ht with ht | ht
      · exact ha t ht v hv
      · simp only [List.mem_singleton] at ht
        subst ht
        simp only [get_timeseries_type, createStateVariable, List.mem_cons,
          List.mem_singleton, List.not_mem_nil, or_false] at hv
        rcases hv with hv | hv <;> subst hv <;> decide
    · subst ht
      rcases List.mem_append.mp hv with hv | hv
      · exact hnth v hv
      · simp only [List.mem_singleton] at hv
        subst hv
        exact clean_name_idempotent r.name

theorem sanitizedOk_processRecord (s : BuildState) (root : Nat) (r : Record)
    (h : sanitizedOk s = true) : sanitizedOk (processRecord s root r) = true := by
  cases hk : r.kind with
  | unsupported => simpa [processRecord, hk] using h
  | ordinary =>
    simp only [processRecord, hk]
    exact sanitizedOk_buildLeaf _ _ _ (sanitizedOk_walkPath r.path s root h)
  | imageSeries =>
    simp only [processRecord, hk]
    exact sanitizedOk_buildLeaf _ _ _ (sanitizedOk_walkPath r.path s root h)

theorem nth_arena (s : BuildState) (A : List GCompositeType) (L : List Nat) (i : Nat) :
    nth { s with arena := A, library := L } i = A.getD i default := rfl

theorem buildLeaf_ordinary_eq (s : BuildState) (term : Nat) (r : Record)
    (hk : r.kind = RecordKind.ordinary) :
    buildLeaf s term r =
      { s with
          arena := (s.arena ++ [get_timeseries_type r.name]).set term
            (⟨(nth s term).id, (nth s term).name,
              (nth s term).vars ++ [(⟨clean_name_to_variable r.name,
                clean_name_to_variable r.name, s.arena.length, none⟩ : GVariable)]⟩ :
                  GCompositeType),
          library := s.library ++ [s.arena.length] } := by
  simp [buildLeaf, hk]

/-! ### Concrete fixtures for witnesses -/

/-- The state `createModel` hands to `importType`: the factory's common
state-variable type at index 0, the root composite type at index 1, and the
top-level `'nwbfile'` variable. -/
def initState : BuildState :=
  ⟨[stateVariableCommonType, ⟨"nwb", "nwb", []⟩], [], [⟨"nwbfile", "nwbfile", 1, none⟩]⟩

/-- A two-segment ordinary record used by concrete witnesses. -/
def sampleOrdinaryRecord : Record :=
  ⟨"sig one", ["a b", "c"], RecordKind.ordinary, Except.error "", [1, 2, 3], "seconds",
   [[4, 5]], "mV"⟩

/-- An image-bearing record whose pixel fetch raises, used by the
error-isolation witness. -/
def failingImageRecord : Record :=
  ⟨"img", ["a b"], RecordKind.imageSeries, Except.error "broken", [], "", [], ""⟩

/-- An image-bearing record carrying a 1×2 RGB pixel array. -/
def sampleImageRecord : Record :=
  ⟨"pic", ["stim"], RecordKind.imageSeries, Except.ok [[(1, 2, 3), (4, 5, 6)]],
   [], "", [], ""⟩

/-- An unsupported record. -/
def unsupportedRecord : Record :=
  ⟨"weird", ["a b"], RecordKind.unsupported, Except.error "", [], "", [], ""⟩

/-- An ordinary record whose raw name is not a valid identifier. -/
def rawNameRecord : Record :=
  ⟨"My Group!", ["acquisition"], RecordKind.ordinary, Except.error "", [], "", [], ""⟩

/-! ### The claims -/

/-- **C7.** `clean_name_to_variable` is a deterministic pure function that
converts spaces to underscores and keeps only alphanumeric and underscore
characters; `"My Group!"` maps to `"My_Group"`, and the two distinct raw
names `"My Group!"` and `"My_Group"` map to the same identifier.
(Determinism and purity hold for every Lean function; the character
discipline and the two concrete facts are stated.) -/
theorem clean_name_to_variable_spec :
    (∀ s : String, ∀ c ∈ (clean_name_to_variable s).data,
      (c.isAlphanum || c = '_') = true) ∧
    clean_name_to_variable "My Group!" = "My_Group" ∧
    clean_name_to_variable "My Group!" = clean_name_to_variable "My_Group" :=
  ⟨clean_name_chars, by decide, by decide⟩

/-- Witness for `clean_name_to_variable_spec`: its universally quantified
conjunct evaluated at the concrete name `"My Group!"` and the character
`'M'`. -/
theorem clean_name_to_variable_spec_instance :
    ('M'.isAlphanum || 'M' = '_') = true :=
  clean_name_to_variable_spec.1 "My Group!" 'M' (by decide)

/-- **C1.** One composite node per distinct sanitized path prefix: after a
supported record `r₁` whose path extends a prefix `q₁` has been imported,
walking any path `q₂` with the same sanitized names as `q₁` (as a later
record sharing the prefix would) changes nothing — every segment is found in
the existing parent and descended into — and reaches the same node `r₁`'s
walk used, so no duplicate type or variable is ever created for a shared
prefix. -/
theorem importType_reusesSharedChain (s : BuildState) (root : Nat) (r₁ : Record)
    (q₁ q₂ a : List String)
    (hwf : WFb s = true) (hroot : root < s.arena.length)
    (hk : r₁.kind ≠ RecordKind.unsupported)
    (hp : r₁.path = q₁ ++ a)
    (hq : q₁.map clean_name_to_variable = q₂.map clean_name_to_variable) :
    walkPath (processRecord s root r₁) root q₂
      = (processRecord s root r₁, (walkPath s root q₁).2) := by
  have hle : StateLe (walkPath s root q₁).1 (processRecord s root r₁) := by
    rw [processRecord_eq_walk_buildLeaf hk, hp, walkPath_append]
    exact stateLe_trans (walkPath_le a _ _) (buildLeaf_le _ _ _)
  rw [← walkPath_congr (processRecord s root r₁) root hq]
  exact walkPath_stable q₁ s _ root hwf hroot hle

/-- Witness for `importType_reusesSharedChain`: after importing a record at
path `["a b", "c"]`, re-walking the differently-spelled prefix `["a_b!"]`
(same sanitized name `"a_b"`) is a pure reuse reaching the same node. -/
theorem importType_reusesSharedChain_instance :
    walkPath (processRecord initState 1 sampleOrdinaryRecord) 1 ["a_b!"]
      = (processRecord initState 1 sampleOrdinaryRecord,
         (walkPath initState 1 ["a b"]).2) :=
  importType_reusesSharedChain initState 1 sampleOrdinaryRecord ["a b"] ["a_b!"] ["c"]
    (by decide) (by decide) (by decide) rfl (by decide)

/-- **C3.** A record whose kind is not among the supported time-series types
is skipped with a logged warning: it contributes no node, variable or leaf
anywhere — the import of the remaining records is exactly the import without
it. -/
theorem importType_skipsUnsupported (s : BuildState) (root : Nat)
    (rs₁ rs₂ : List Record) (r : Record) (hk : r.kind = RecordKind.unsupported) :
    importType s root (rs₁ ++ r :: rs₂) = importType s root (rs₁ ++ rs₂) := by
  simp only [importType, List.foldl_append, List.foldl_cons, processRecord, hk]

/-- Witness for `importType_skipsUnsupported` on a concrete record list. -/
theorem importType_skipsUnsupported_instance :
    importType initState 1 ([sampleOrdinaryRecord] ++ unsupportedRecord :: [])
      = importType initState 1 ([sampleOrdinaryRecord] ++ []) :=
  importType_skipsUnsupported initState 1 [sampleOrdinaryRecord] [] unsupportedRecord rfl

/-- **C4.** A `ValueError` / `NotImplementedError` raised while building one
record's leaf is caught and logged: the failing record contributes only its
path walk (no leaf), the loop continues, and every ordinary record in the
batch — the other N−1 when exactly one fails — still gets its leaf variable
in the resulting tree. -/
theorem importType_isolatesLeafBuildError (s : BuildState) (root : Nat)
    (rs₁ rs₂ : List Record) (bad : Record) (msg : String)
    (hwf : WFb s = true) (hroot : root < s.arena.length)
    (hk : bad.kind = RecordKind.imageSeries) (he : bad.imageData = Except.error msg) :
    (∀ st : BuildState, processRecord st root bad = (walkPath st root bad.path).1) ∧
    ∀ r ∈ rs₁ ++ bad :: rs₂, r.kind = RecordKind.ordinary →
      leafPresent (importType s root (rs₁ ++ bad :: rs₂)) root r = true := by
  constructor
  · intro st
    rw [processRecord_eq_walk_buildLeaf (by simp [hk])]
    simp [buildLeaf, hk, he]
  · intro r hr hko
    have h := foldl_process_settles (rs₁ ++ bad :: rs₂)
      { s with library := s.library ++ [root] } root hwf hroot r hr hko
    exact h.2

/-- Witness for `importType_isolatesLeafBuildError`: with one ordinary record
and one failing image record, the ordinary record's leaf is present in the
final tree. -/
theorem importType_isolatesLeafBuildError_instance :
    leafPresent
      (importType initState 1 ([sampleOrdinaryRecord] ++ failingImageRecord :: []))
      1 sampleOrdinaryRecord = true :=
  (importType_isolatesLeafBuildError initState 1 [sampleOrdinaryRecord] []
      failingImageRecord "broken" (by decide) (by decide) rfl rfl).2
    sampleOrdinaryRecord (List.mem_cons_self _ _) rfl

/-- **C5.** For every ordinary supported record, the builder synthesizes a
fresh time-series composite type — appended to the library on every
occurrence, with an index no previously registered type has, hence never
reused — whose members are exactly the two state variables `"time"` and
`"data"`, each carrying the unresolved import-value placeholder, and appends
to the terminal group node a variable named with the sanitized record name
pointing at that fresh type. -/
theorem importType_freshTimeseriesLeaf (s : BuildState) (root : Nat) (r : Record)
    (hwf : WFb s = true) (hroot : root < s.arena.length) (hlib : libOk s = true)
    (hk : r.kind = RecordKind.ordinary) :
    (processRecord s root r).library
      = (walkPath s root r.path).1.library ++ [(walkPath s root r.path).1.arena.length] ∧
    nth (processRecord s root r) ((walkPath s root r.path).1.arena.length)
      = ⟨r.name, "timeseries",
         [⟨"time", "time", 0, some GValue.importedValue⟩,
          ⟨"data", "data", 0, some GValue.importedValue⟩]⟩ ∧
    nth (processRecord s root r) (walkPath s root r.path).2
      = ⟨(nth (walkPath s root r.path).1 (walkPath s root r.path).2).id,
         (nth (walkPath s root r.path).1 (walkPath s root r.path).2).name,
         (nth (walkPath s root r.path).1 (walkPath s root r.path).2).vars
           ++ [⟨clean_name_to_variable r.name, clean_name_to_variable r.name,
                (walkPath s root r.path).1.arena.length, none⟩]⟩ ∧
    ∀ i ∈ (walkPath s root r.path).1.library,
      i ≠ (walkPath s root r.path).1.arena.length := by
  have hpr : processRecord s root r
      = buildLeaf (walkPath s root r.path).1 (walkPath s root r.path).2 r :=
    processRecord_eq_walk_buildLeaf (by simp [hk])
  obtain ⟨hwf₁, hm₁⟩ := walkPath_wf r.path s root hwf hroot
  refine ⟨?_, ?_, ?_, ?_⟩
  · rw [hpr]
    simp [buildLeaf, hk]
  · rw [hpr, buildLeaf_ordinary_eq _ _ _ hk, nth_arena,
      getD_set_ne _ _ _ _ (Nat.ne_of_lt hm₁), getD_append_len]
    rfl
  · rw [hpr]
    simp only [buildLeaf, hk]
    have hl : (walkPath s root r.path).2
        < ((walkPath s root r.path).1.arena ++ [get_timeseries_type r.name]).length := by
      simp
      omega
    simp [nth, getE_set_self _ _ _ hl]
  · intro i hi
    have := (libOk_iff _).mp (walkPath_lib r.path s root hlib) i hi
    omega

/-- Witness for `importType_freshTimeseriesLeaf` at a concrete ordinary
record: the freshness conjunct applied to a library entry. -/
theorem importType_freshTimeseriesLeaf_instance :
    nth (processRecord initState 1 sampleOrdinaryRecord)
      ((walkPath initState 1 sampleOrdinaryRecord.path).1.arena.length)
      = ⟨"sig one", "timeseries",
         [⟨"time", "time", 0, some GValue.importedValue⟩,
          ⟨"data", "data", 0, some GValue.importedValue⟩]⟩ :=
  (importType_freshTimeseriesLeaf initState 1 sampleOrdinaryRecord
    (by decide) (by decide) (by decide) rfl).2.1

/-- **C6.** For every image-bearing record, the builder eagerly fetches the
decoded pixel array, interprets it as 3-channel RGB pixels, PNG-encodes it,
base64-encodes the PNG bytes to a string, wraps that string as a single
image value inside a one-element multi-valued-series container, and appends
it to the terminal node as a state variable literally named `"image"`; the
library gains nothing (no deferred reference is registered). -/
theorem importType_imageLeafEager (s : BuildState) (root : Nat) (r : Record)
    (arr : PixelArray)
    (hwf : WFb s = true) (hroot : root < s.arena.length)
    (hk : r.kind = RecordKind.imageSeries) (himg : r.imageData = Except.ok arr) :
    nth (processRecord s root r) (walkPath s root r.path).2
      = ⟨(nth (walkPath s root r.path).1 (walkPath s root r.path).2).id,
         (nth (walkPath s root r.path).1 (walkPath s root r.path).2).name,
         (nth (walkPath s root r.path).1 (walkPath s root r.path).2).vars
           ++ [⟨"image", "image", 0,
                some (GValue.mdTimeSeries "imagevariable"
                  [GValue.image (base64encode (pngEncode arr))])⟩]⟩ ∧
    (processRecord s root r).library = (walkPath s root r.path).1.library := by
  have hpr : processRecord s root r
      = buildLeaf (walkPath s root r.path).1 (walkPath s root r.path).2 r :=
    processRecord_eq_walk_buildLeaf (by simp [hk])
  obtain ⟨hwf₁, hm₁⟩ := walkPath_wf r.path s root hwf hroot
  constructor
  · rw [hpr]
    simp only [buildLeaf, hk, himg]
    simp [nth, getE_set_self _ _ _ hm₁, createStateVariable, extract_image_variable]
  · rw [hpr]
    simp [buildLeaf, hk, himg]

/-- Witness for `importType_imageLeafEager` on a concrete 1×2 RGB image. -/
theorem importType_imageLeafEager_instance :
    nth (processRecord initState 1 sampleImageRecord)
        (walkPath initState 1 sampleImageRecord.path).2
      = ⟨(nth (walkPath initState 1 sampleImageRecord.path).1
            (walkPath initState 1 sampleImageRecord.path).2).id,
         (nth (walkPath initState 1 sampleImageRecord.path).1
            (walkPath initState 1 sampleImageRecord.path).2).name,
         (nth (walkPath initState 1 sampleImageRecord.path).1
            (walkPath initState 1 sampleImageRecord.path).2).vars
           ++ [⟨"image", "image", 0,
                some (GValue.mdTimeSeries "imagevariable"
                  [GValue.image (base64encode
                    (pngEncode [[(1, 2, 3), (4, 5, 6)]]))])⟩]⟩ :=
  (importType_imageLeafEager initState 1 sampleImageRecord [[(1, 2, 3), (4, 5, 6)]]
    (by decide) (by decide) rfl rfl).1

/-- **C8, counterexample.** Not every identifier placed in the model has
passed through sanitization: importing an ordinary record whose raw name is
`"My Group!"` registers (library index 3) a composite type whose id is the
raw string `"My Group!"` — the synthesized per-leaf timeseries type takes
the record's raw name as its id — which is not alphanumeric-and-underscore. -/
theorem timeseriesTypeId_unsanitized :
    3 ∈ (createModel [rawNameRecord] "nwb").library ∧
    ((nth (createModel [rawNameRecord] "nwb") 3).id.data.all
      (fun c => c.isAlphanum || c = '_')) = false := by
  constructor
  · decide
  · decide

/-- **C8, amended.** Every *variable* identifier placed in the model by
`importType` is sanitized — a fixed point of `clean_name_to_variable`,
covering the walked group variables, the sanitized leaf-variable names and
the literals `"time"`, `"data"`, `"image"`, `"nwbfile"` — provided the
initial state satisfies the same invariant; composite-*type* ids are not all
sanitized (the per-leaf timeseries type carries the raw record name, see the
counterexample). -/
theorem importType_variableIdsSanitized (s : BuildState) (root : Nat)
    (records : List Record) (h : sanitizedOk s = true) :
    sanitizedOk (importType s root records) = true := by
  unfold importType
  have h0 : sanitizedOk { s with library := s.library ++ [root] } = true := h
  generalize { s with library := s.library ++ [root] } = s0 at h0 ⊢
  clear h
  induction records generalizing s0 with
  | nil => exact h0
  | cons r rest ih =>
    simp only [List.foldl_cons]
    exact ih _ (sanitizedOk_processRecord s0 root r h0)

/-- Witness for `importType_variableIdsSanitized` on the raw-named record:
the variable ids stay sanitized even though the type id does not. -/
theorem importType_variableIdsSanitized_instance :
    sanitizedOk (importType initState 1 [rawNameRecord]) = true :=
  importType_variableIdsSanitized initState 1 [rawNameRecord] (by decide)

/-- The sample record as stored behind the reader path `["acq", "sig"]`. -/
def sampleReader : NWBReaderM :=
  ⟨[(["acq", "sig"], sampleOrdinaryRecord)]⟩

/-- **C2.** `importValue` splits the reference on the path separator, uses
the segments strictly between the first and the last to re-fetch the record,
and dispatches on the last segment: the literal `"time"` yields a time
series named `"time_" + recordName` from the timestamps capped at
`MAX_SAMPLES` with the unit guessed from the raw timestamps unit string; any
other last segment yields a time series named `"data_" + recordName` from
the first channel of the capped data samples with the unit guessed from the
raw data unit string. -/
theorem importValue_decodesReference (rd : NWBReaderM) (ref marker last : String)
    (segs : List String) (r : Record) (ch0 : List Int)
    (hsplit : splitPieces ref = marker :: (segs ++ [last]))
    (hr : retrieve_from_path rd segs = Except.ok r)
    (hd : (get_plottable_timeseries r MAX_SAMPLES).head? = some ch0) :
    importValue rd ref = Except.ok
      (if last = "time" then
        createTimeSeries ("time_" ++ r.name) (get_timeseries_timestamps r MAX_SAMPLES)
          (guessUnits r.timestampsUnit)
      else
        createTimeSeries ("data_" ++ r.name) ch0 (guessUnits r.unit)) := by
  have h1 : ((marker :: (segs ++ [last])).drop 1).dropLast = segs := by simp
  have h2 : (marker :: (segs ++ [last])).getLastD "" = last := by simp [List.getLastD]
  unfold importValue
  rw [hsplit]
  simp only [h1, h2, hr]
  by_cases hlt : last = "time"
  · simp [hlt]
  · simp [hlt, hd]

/-- Witness for `importValue_decodesReference`: resolving the data axis of
the stored sample record through a concrete reference string. -/
theorem importValue_decodesReference_instance :
    importValue sampleReader "nwbfile.acq.sig.data" = Except.ok
      (if "data" = "time" then
        createTimeSeries ("time_" ++ sampleOrdinaryRecord.name)
          (get_timeseries_timestamps sampleOrdinaryRecord MAX_SAMPLES)
          (guessUnits sampleOrdinaryRecord.timestampsUnit)
      else
        createTimeSeries ("data_" ++ sampleOrdinaryRecord.name) [4, 5]
          (guessUnits sampleOrdinaryRecord.unit)) :=
  importValue_decodesReference sampleReader "nwbfile.acq.sig.data" "nwbfile" "data"
    ["acq", "sig"] sampleOrdinaryRecord [4, 5] (by decide) rfl rfl

/-- **C9.** When the interior path of a reference cannot be re-fetched, the
resolver propagates the underlying error to the caller unchanged: no error
absorption, no substituted default value. -/
theorem importValue_propagatesResolutionError (rd : NWBReaderM)
    (ref marker last : String) (segs : List String) (e : String)
    (hsplit : splitPieces ref = marker :: (segs ++ [last]))
    (hfail : retrieve_from_path rd segs = Except.error e) :
    importValue rd ref = Except.error e := by
  have h1 : ((marker :: (segs ++ [last])).drop 1).dropLast = segs := by simp
  unfold importValue
  rw [hsplit]
  simp only [h1, hfail]

/-- Witness for `importValue_propagatesResolutionError`: resolving against
an empty reader fails with the reader's own error. -/
theorem importValue_propagatesResolutionError_instance :
    importValue ⟨[]⟩ "nwbfile.gone.time" = Except.error "No record at path gone" :=
  importValue_propagatesResolutionError ⟨[]⟩ "nwbfile.gone.time" "nwbfile" "time"
    ["gone"] "No record at path gone" (by decide) rfl

/-- **C10.** `importValue` and `import_value_from_path` are extensionally
equal: on every retained reader state and reference string they perform the
identical decoding, re-fetch, capping and unit inference, return equal
values, and fail with the same errors — one is a verbatim duplicate of the
other. -/
theorem importValue_eq_import_value_from_path :
    ∀ (rd : NWBReaderM) (p : String), importValue rd p = import_value_from_path rd p :=
  fun _ _ => rfl

end NWB
